import Mathlib

/-!
Shallow embedding of the `acell` library: three single-threaded
memory-management primitives — `Cell` (copy-in/copy-out interior
mutability), `Rc` (reference-counted shared-ownership pointer) and
`RefCell` (dynamically checked borrow arbitration) — together with
proofs of their stated properties.

Naming follows the source files `cell.rs`, `rc.rs`, `refcell.rs`.
Stateful Rust code is embedded by explicit state passing; the fatal
`unreachable!()` branches of the guard destructors are embedded as
`none` of an `Option` result.
-/

/-! ## cell.rs — `Cell<T>` -/

/-- `Cell<T>` from `cell.rs`: one storage slot holding exactly one `T`.
The `UnsafeCell` wrapper has no observable content beyond the value. -/
structure Cell (α : Type) where
  value : α
deriving DecidableEq

namespace Cell

/-- `Cell::new(value)`. -/
def new (v : α) : Cell α := ⟨v⟩

/-- `Cell::set(&self, value)`: `*self.value.get() = value` — overwrites
the slot unconditionally (state-passing embedding). -/
def set (_ : Cell α) (v : α) : Cell α := ⟨v⟩

/-- `Cell::get(&self) -> T`: `self.value.get().read()` — returns a copy
of the current contents. -/
def get (c : Cell α) : α := c.value

/-- `Cell::get` with the post-state made explicit: the read returns a
copy and leaves the slot untouched (`&self`, `read()` does not move). -/
def getS (c : Cell α) : α × Cell α := (c.value, c)

end Cell

/-! ## refcell.rs — `RefState`, `RefCell<T>`, `Ref`, `RefMut` -/

/-- `RefState` from `refcell.rs`. -/
inductive RefState where
  | Unshared : RefState
  | Shared : Nat → RefState
  | Exclusive : RefState
deriving DecidableEq

namespace RefCell

/-- `RefCell::new(value)`: initial borrow state. -/
def newState : RefState := .Unshared

/-- `RefCell::borrow(&self) -> Option<Ref>`, embedded on the borrow
state: first component is whether a guard was issued, second is the
state of the cell after the call. -/
def borrow : RefState → Bool × RefState
  | .Unshared => (true, .Shared 1)
  | .Shared n => (true, .Shared (n + 1))
  | .Exclusive => (false, .Exclusive)

/-- `RefCell::borrow_mut(&self) -> Option<RefMut>`, embedded on the
borrow state: first component is whether a guard was issued, second is
the state of the cell after the call. -/
def borrow_mut : RefState → Bool × RefState
  | .Unshared => (true, .Exclusive)
  | .Shared n => (false, .Shared n)
  | .Exclusive => (false, .Exclusive)

end RefCell

namespace Ref

/-- `Drop for Ref` (shared-guard release) from `refcell.rs`: `some s`
is the updated state, `none` is the fatal `unreachable!()` branch
(`Shared(1)` yields `Unshared`, any other `Shared(n)` yields
`Shared(n - 1)`). -/
def drop : RefState → Option RefState
  | .Shared 1 => some .Unshared
  | .Shared n => some (.Shared (n - 1))
  | _ => none

end Ref

namespace RefMut

/-- `Drop for RefMut` (exclusive-guard release) from `refcell.rs`:
`some s` is the updated state, `none` is the fatal `unreachable!()`
branch. -/
def drop : RefState → Option RefState
  | .Exclusive => some .Unshared
  | _ => none

end RefMut

/-! ## The borrow machine: a `RefCell` together with its live guards

The machine state holds the cell's `RefState` and ghost counts of the
live `Ref` (shared) and `RefMut` (exclusive) guards.  Steps are the
public operations: `borrow`, `borrow_mut` (succeeding or failing as the
code decides) and the destructors of live guards. -/

/-- A `RefCell` plus ghost counts of its live guards. -/
structure BorrowMachine where
  state : RefState
  sharedGuards : Nat
  exclGuards : Nat
deriving DecidableEq

/-- The freshly constructed cell: `Unshared`, no guards. -/
def BorrowMachine.init : BorrowMachine := ⟨RefCell.newState, 0, 0⟩

/-- One step of the borrow machine: a `borrow` / `borrow_mut` call
(successful or failed), or the destruction of a live guard.  Guard
destruction steps exist only when the destructor does not hit its
fatal branch; unreachability of that branch is proved separately. -/
inductive BStep : BorrowMachine → BorrowMachine → Prop where
  | borrowOk (s : BorrowMachine) (t : RefState)
      (h : RefCell.borrow s.state = (true, t)) :
      BStep s ⟨t, s.sharedGuards + 1, s.exclGuards⟩
  | borrowFail (s : BorrowMachine)
      (h : (RefCell.borrow s.state).1 = false) :
      BStep s ⟨(RefCell.borrow s.state).2, s.sharedGuards, s.exclGuards⟩
  | borrowMutOk (s : BorrowMachine) (t : RefState)
      (h : RefCell.borrow_mut s.state = (true, t)) :
      BStep s ⟨t, s.sharedGuards, s.exclGuards + 1⟩
  | borrowMutFail (s : BorrowMachine)
      (h : (RefCell.borrow_mut s.state).1 = false) :
      BStep s ⟨(RefCell.borrow_mut s.state).2, s.sharedGuards, s.exclGuards⟩
  | dropShared (s : BorrowMachine) (t : RefState)
      (hg : 1 ≤ s.sharedGuards) (h : Ref.drop s.state = some t) :
      BStep s ⟨t, s.sharedGuards - 1, s.exclGuards⟩
  | dropExcl (s : BorrowMachine) (t : RefState)
      (hg : 1 ≤ s.exclGuards) (h : RefMut.drop s.state = some t) :
      BStep s ⟨t, s.sharedGuards, s.exclGuards - 1⟩

/-- States of the borrow machine reachable from a fresh cell through
the public contract. -/
inductive BReach : BorrowMachine → Prop where
  | init : BReach BorrowMachine.init
  | step {s s' : BorrowMachine} : BReach s → BStep s s' → BReach s'

/-- The borrow invariant: the cell's state encodes exactly the live
guards — `Unshared` means no guards, `Shared n` means `n ≥ 1` live
shared guards and no exclusive one, `Exclusive` means one live
exclusive guard and no shared ones. -/
def BInv (s : BorrowMachine) : Prop :=
  (s.state = .Unshared ∧ s.sharedGuards = 0 ∧ s.exclGuards = 0) ∨
  (∃ n, 1 ≤ n ∧ s.state = .Shared n ∧ s.sharedGuards = n ∧ s.exclGuards = 0) ∨
  (s.state = .Exclusive ∧ s.sharedGuards = 0 ∧ s.exclGuards = 1)

theorem BInv_init : BInv BorrowMachine.init :=
  Or.inl ⟨rfl, rfl, rfl⟩

theorem BInv_step {s s' : BorrowMachine} (hinv : BInv s) (hs : BStep s s') :
    BInv s' := by
  cases hs with
  | borrowOk t h =>
    rcases hinv with ⟨h1, h2, h3⟩ | ⟨n, hn, h1, h2, h3⟩ | ⟨h1, h2, h3⟩
    · rw [h1] at h; simp [RefCell.borrow] at h
      exact Or.inr (Or.inl ⟨1, le_refl 1, by simp [← h], by simp [h2], h3⟩)
    · rw [h1] at h; simp [RefCell.borrow] at h
      exact Or.inr (Or.inl ⟨n + 1, by omega, by simp [← h], by simp [h2], h3⟩)
    · rw [h1] at h; simp [RefCell.borrow] at h
  | borrowFail h =>
    rcases hinv with ⟨h1, h2, h3⟩ | ⟨n, hn, h1, h2, h3⟩ | ⟨h1, h2, h3⟩
    · rw [h1] at h; simp [RefCell.borrow] at h
    · rw [h1] at h; simp [RefCell.borrow] at h
    · exact Or.inr (Or.inr ⟨by simp [h1, RefCell.borrow], h2, h3⟩)
  | borrowMutOk t h =>
    rcases hinv with ⟨h1, h2, h3⟩ | ⟨n, hn, h1, h2, h3⟩ | ⟨h1, h2, h3⟩
    · rw [h1] at h; simp [RefCell.borrow_mut] at h
      exact Or.inr (Or.inr ⟨by simp [← h], by simp [h2], by simp [h3]⟩)
    · rw [h1] at h; simp [RefCell.borrow_mut] at h
    · rw [h1] at h; simp [RefCell.borrow_mut] at h
  | borrowMutFail h =>
    rcases hinv with ⟨h1, h2, h3⟩ | ⟨n, hn, h1, h2, h3⟩ | ⟨h1, h2, h3⟩
    · rw [h1] at h; simp [RefCell.borrow_mut] at h
    · exact Or.inr (Or.inl ⟨n, hn, by simp [h1, RefCell.borrow_mut], h2, h3⟩)
    · exact Or.inr (Or.inr ⟨by simp [h1, RefCell.borrow_mut], h2, h3⟩)
  | dropShared t hg h =>
    rcases hinv with ⟨h1, h2, h3⟩ | ⟨n, hn, h1, h2, h3⟩ | ⟨h1, h2, h3⟩
    · omega
    · rw [h1] at h
      match n, hn, h with
      | 1, _, h =>
        simp [Ref.drop] at h
        exact Or.inl ⟨by simp [← h], by simp [h2], h3⟩
      | (m + 2), _, h =>
        simp [Ref.drop] at h
        exact Or.inr (Or.inl ⟨m + 1, by omega, by simp [← h], by simp [h2], h3⟩)
    · omega
  | dropExcl t hg h =>
    rcases hinv with ⟨h1, h2, h3⟩ | ⟨n, hn, h1, h2, h3⟩ | ⟨h1, h2, h3⟩
    · omega
    · omega
    · rw [h1] at h; simp [RefMut.drop] at h
      exact Or.inl ⟨by simp [← h], h2, by simp [h3]⟩

theorem BReach_inv {s : BorrowMachine} (h : BReach s) : BInv s := by
  induction h with
  | init => exact BInv_init
  | step _ hs ih => exact BInv_step ih hs

/-! ## Theorems for the direct per-operation claims -/

/-- C8: for every `Cell` and all values `v1, v2`: `get()` immediately
after `set(v1); set(v2)` returns `v2` regardless of `v1`; `get` returns
a copy of the current contents and leaves the stored value intact. -/
theorem cell_set_set_get (α : Type) (c : Cell α) (v1 v2 : α) :
    ((c.set v1).set v2).get = v2 ∧
    (Cell.getS c).1 = c.get ∧ (Cell.getS c).2 = c := by
  exact ⟨rfl, rfl, rfl⟩

/-- C2: `borrow()` issues a guard exactly when the state is not
`Exclusive`; from `Unshared` the state becomes `Shared 1`, from
`Shared n` it becomes `Shared (n+1)`, and from `Exclusive` no guard is
issued and the state is unchanged. -/
theorem refcell_borrow_spec (s : RefState) :
    ((RefCell.borrow s).1 = true ↔ s ≠ .Exclusive) ∧
    RefCell.borrow .Unshared = (true, .Shared 1) ∧
    (∀ n : Nat, RefCell.borrow (.Shared n) = (true, .Shared (n + 1))) ∧
    RefCell.borrow .Exclusive = (false, .Exclusive) := by
  refine ⟨?_, rfl, fun n => rfl, rfl⟩
  cases s <;> simp [RefCell.borrow]

/-- Witness for C2 at the concrete state `Shared 3`. -/
theorem refcell_borrow_spec_witness :
    (RefCell.borrow (.Shared 3)).1 = true :=
  ((refcell_borrow_spec (.Shared 3)).1).mpr (by decide)

/-- C3: `borrow_mut()` issues a guard exactly when the state is
`Unshared`, in which case the state becomes `Exclusive`; from any
`Shared n` or `Exclusive` state no guard is issued and the state is
unchanged. -/
theorem refcell_borrow_mut_spec (s : RefState) :
    ((RefCell.borrow_mut s).1 = true ↔ s = .Unshared) ∧
    RefCell.borrow_mut .Unshared = (true, .Exclusive) ∧
    (∀ n : Nat, RefCell.borrow_mut (.Shared n) = (false, .Shared n)) ∧
    RefCell.borrow_mut .Exclusive = (false, .Exclusive) := by
  refine ⟨?_, rfl, fun n => rfl, rfl⟩
  cases s <;> simp [RefCell.borrow_mut]

/-- Witness for C3 at the concrete state `Unshared`. -/
theorem refcell_borrow_mut_spec_witness :
    (RefCell.borrow_mut .Unshared).1 = true :=
  ((refcell_borrow_mut_spec .Unshared).1).mpr rfl

/-- C4: releasing a shared guard at `Shared 1` yields `Unshared`, at
`Shared n` with `n > 1` yields `Shared (n-1)`; releasing an exclusive
guard at `Exclusive` yields `Unshared`; each release performs exactly
that transition. -/
theorem guard_release_transitions (n : Nat) (h : 1 < n) :
    Ref.drop (.Shared 1) = some .Unshared ∧
    Ref.drop (.Shared n) = some (.Shared (n - 1)) ∧
    RefMut.drop .Exclusive = some .Unshared := by
  refine ⟨rfl, ?_, rfl⟩
  obtain ⟨m, rfl⟩ : ∃ m, n = m + 2 := ⟨n - 2, by omega⟩
  rfl

/-- Witness for C4 at `n = 2`. -/
theorem guard_release_transitions_witness :
    Ref.drop (.Shared 2) = some (.Shared 1) :=
  (guard_release_transitions 2 (by decide)).2.1

/-- C5: a guard release from a state inconsistent with the guard's kind
hits the fatal branch (`none`), never a silent transition; and in every
machine state reachable through the public contract, a live guard's
release never hits that branch. -/
theorem guard_release_fatal_unreachable (s : BorrowMachine) (h : BReach s) :
    (Ref.drop .Unshared = none ∧ Ref.drop .Exclusive = none) ∧
    (∀ t : RefState, t ≠ .Exclusive → RefMut.drop t = none) ∧
    (1 ≤ s.sharedGuards → ∃ t, Ref.drop s.state = some t) ∧
    (1 ≤ s.exclGuards → RefMut.drop s.state = some .Unshared) := by
  refine ⟨⟨rfl, rfl⟩, ?_, ?_, ?_⟩
  · intro t ht
    cases t with
    | Unshared => rfl
    | Shared n => rfl
    | Exclusive => exact absurd rfl ht
  · intro hg
    rcases BReach_inv h with ⟨h1, h2, h3⟩ | ⟨n, hn, h1, h2, h3⟩ | ⟨h1, h2, h3⟩
    · omega
    · rw [h1]
      match n, hn with
      | 1, _ => exact ⟨.Unshared, rfl⟩
      | (m + 2), _ => exact ⟨.Shared (m + 1), rfl⟩
    · omega
  · intro hg
    rcases BReach_inv h with ⟨h1, h2, h3⟩ | ⟨n, hn, h1, h2, h3⟩ | ⟨h1, h2, h3⟩
    · omega
    · omega
    · rw [h1]; rfl

/-- Witness for C5: after one successful `borrow` the machine is at
`⟨Shared 1, 1, 0⟩`, and the live shared guard's release succeeds. -/
theorem guard_release_fatal_unreachable_witness :
    ∃ t, Ref.drop (RefState.Shared 1) = some t :=
  (guard_release_fatal_unreachable ⟨.Shared 1, 1, 0⟩
      (BReach.step BReach.init
        (BStep.borrowOk BorrowMachine.init (.Shared 1) rfl))).2.2.1
    (by decide)

/-- C9: in every reachable machine state in which every obtained guard
has been released, the cell is back in `Unshared` and `borrow` /
`borrow_mut` behave exactly as on a freshly constructed cell. -/
theorem balanced_sequence_unshared (s : BorrowMachine) (h : BReach s)
    (hs : s.sharedGuards = 0) (he : s.exclGuards = 0) :
    s.state = .Unshared ∧
    RefCell.borrow s.state = RefCell.borrow BorrowMachine.init.state ∧
    RefCell.borrow_mut s.state = RefCell.borrow_mut BorrowMachine.init.state := by
  rcases BReach_inv h with ⟨h1, h2, h3⟩ | ⟨n, hn, h1, h2, h3⟩ | ⟨h1, h2, h3⟩
  · exact ⟨h1, by rw [h1]; rfl, by rw [h1]; rfl⟩
  · omega
  · omega

/-- Witness for C9: borrow then release, ending at `⟨Unshared, 0, 0⟩`. -/
theorem balanced_sequence_unshared_witness :
    (⟨.Unshared, 0, 0⟩ : BorrowMachine).state = .Unshared :=
  (balanced_sequence_unshared ⟨.Unshared, 0, 0⟩
      (BReach.step
        (BReach.step BReach.init
          (BStep.borrowOk BorrowMachine.init (.Shared 1) rfl))
        (BStep.dropShared ⟨.Shared 1, 1, 0⟩ .Unshared (by decide) rfl))
      rfl rfl).1

/-! ## rc.rs — `Rc<T>`

The heap block `RcInner { value, refcount }` lives behind a `NonNull`
pointer shared by all handles.  The blocks of distinct `Rc::new` calls
never interact, so the state of one block is embedded directly:
`block` is the allocation (present or freed), `handles` is the ghost
count of live handles referencing it, and `deallocs` the ghost count of
deallocation events of this block.  An operation returns `none` when it
would dereference a freed block — no reachable execution does. -/

/-- `RcInner<T>` from `rc.rs`. -/
structure RcInner (α : Type) where
  value : α
  refcount : Nat
deriving DecidableEq

/-- The state of one `Rc` allocation block with its ghost counts. -/
structure RcState (α : Type) where
  block : Option (RcInner α)
  handles : Nat
  deallocs : Nat
deriving DecidableEq

namespace Rc

/-- `Rc::new(value)`: a fresh block with refcount 1 and one handle. -/
def new (v : α) : RcState α := ⟨some ⟨v, 1⟩, 1, 0⟩

/-- `Clone for Rc`: `inner.refcount.set(inner.refcount.get() + 1)` and
a new handle to the same block. -/
def cloneOp (s : RcState α) : Option (RcState α) :=
  match s.block with
  | some b => some ⟨some ⟨b.value, b.refcount + 1⟩, s.handles + 1, s.deallocs⟩
  | none => none

/-- `Drop for Rc`: reads the refcount; at `1` the whole block (value
and refcount together) is deallocated, otherwise
`inner.refcount.set(count - 1)`. -/
def dropOp (s : RcState α) : Option (RcState α) :=
  match s.block with
  | some b =>
    match b.refcount with
    | 1 => some ⟨none, s.handles - 1, s.deallocs + 1⟩
    | _ => some ⟨some ⟨b.value, b.refcount - 1⟩, s.handles - 1, s.deallocs⟩
  | none => none

end Rc

/-- One step on an `Rc` block: a `clone` of, or the destruction of, a
live handle (hence the `1 ≤ handles` side condition). -/
inductive RcStep (α : Type) : RcState α → RcState α → Prop where
  | clone (s s' : RcState α) (hh : 1 ≤ s.handles)
      (h : Rc.cloneOp s = some s') : RcStep α s s'
  | drop (s s' : RcState α) (hh : 1 ≤ s.handles)
      (h : Rc.dropOp s = some s') : RcStep α s s'

/-- Block states reachable from `Rc::new v` by clones and handle
destructions. -/
inductive RcReach (α : Type) (v : α) : RcState α → Prop where
  | init : RcReach α v (Rc.new v)
  | step {s s' : RcState α} : RcReach α v s → RcStep α s s' → RcReach α v s'

/-- The `Rc` invariant: either the block is live, its refcount equals
the number of live handles (at least one) and no deallocation has
happened, or the block is freed, no handle survives and exactly one
deallocation happened. -/
def RcInv (v : α) (s : RcState α) : Prop :=
  (s.block = some ⟨v, s.handles⟩ ∧ 1 ≤ s.handles ∧ s.deallocs = 0) ∨
  (s.block = none ∧ s.handles = 0 ∧ s.deallocs = 1)

theorem RcInv_init (v : α) : RcInv v (Rc.new v) :=
  Or.inl ⟨rfl, le_refl 1, rfl⟩

theorem RcInv_step {v : α} {s s' : RcState α} (hinv : RcInv v s)
    (hs : RcStep α s s') : RcInv v s' := by
  cases hs with
  | clone hh h =>
    rcases hinv with ⟨h1, h2, h3⟩ | ⟨h1, h2, h3⟩
    · simp only [Rc.cloneOp, h1, Option.some.injEq] at h
      subst h
      exact Or.inl ⟨rfl, show 1 ≤ s.handles + 1 by omega, h3⟩
    · omega
  | drop hh h =>
    rcases hinv with ⟨h1, h2, h3⟩ | ⟨h1, h2, h3⟩
    · obtain ⟨n, hn⟩ : ∃ n, s.handles = n + 1 := ⟨s.handles - 1, by omega⟩
      cases n with
      | zero =>
        rw [hn] at h1
        simp only [Rc.dropOp, h1, Option.some.injEq] at h
        subst h
        exact Or.inr ⟨rfl, show s.handles - 1 = 0 by omega,
          show s.deallocs + 1 = 1 by omega⟩
      | succ m =>
        rw [hn] at h1
        simp only [Rc.dropOp, h1, Option.some.injEq] at h
        subst h
        exact Or.inl ⟨by rw [hn], show 1 ≤ s.handles - 1 by omega, h3⟩
    · omega

theorem RcReach_inv {v : α} {s : RcState α} (h : RcReach α v s) :
    RcInv v s := by
  induction h with
  | init => exact RcInv_init v
  | step _ hs ih => exact RcInv_step ih hs

/-- `k` repetitions of an operation, in the `Option` monad. -/
def iterOp (f : RcState α → Option (RcState α)) :
    Nat → RcState α → Option (RcState α)
  | 0, s => some s
  | k + 1, s => (f s).bind (iterOp f k)

theorem iterOp_succ (f : RcState α → Option (RcState α)) (k : Nat)
    (s : RcState α) : iterOp f (k + 1) s = (f s).bind (iterOp f k) :=
  rfl

theorem iterOp_clone (N : Nat) (v : α) (c h d : Nat) :
    iterOp Rc.cloneOp N ⟨some ⟨v, c⟩, h, d⟩ =
      some ⟨some ⟨v, c + N⟩, h + N, d⟩ := by
  induction N generalizing c h with
  | zero => simp [iterOp]
  | succ n ih =>
    simp only [iterOp, Rc.cloneOp, Option.some_bind]
    rw [ih]
    have e1 : c + 1 + n = c + (n + 1) := by omega
    have e2 : h + 1 + n = h + (n + 1) := by omega
    rw [e1, e2]

theorem iterOp_drop_live (k : Nat) (v : α) (m h d : Nat) (hk : k < m) :
    iterOp Rc.dropOp k ⟨some ⟨v, m⟩, h, d⟩ =
      some ⟨some ⟨v, m - k⟩, h - k, d⟩ := by
  induction k generalizing m h with
  | zero => simp [iterOp]
  | succ n ih =>
    obtain ⟨p, rfl⟩ : ∃ p, m = p + 2 := ⟨m - 2, by omega⟩
    rw [iterOp_succ]
    have hd : Rc.dropOp ⟨some ⟨v, p + 2⟩, h, d⟩ =
        some ⟨some ⟨v, p + 1⟩, h - 1, d⟩ := rfl
    rw [hd, Option.some_bind, ih (p + 1) (h - 1) (by omega)]
    have e1 : p + 1 - n = p + 2 - (n + 1) := by omega
    have e2 : h - 1 - n = h - (n + 1) := by omega
    rw [e1, e2]

theorem iterOp_drop_all (m : Nat) (v : α) (h d : Nat) (hm : 1 ≤ m) :
    iterOp Rc.dropOp m ⟨some ⟨v, m⟩, h, d⟩ =
      some ⟨none, h - m, d + 1⟩ := by
  induction m generalizing h with
  | zero => omega
  | succ n ih =>
    cases n with
    | zero => simp [iterOp, Rc.dropOp]
    | succ p =>
      rw [iterOp_succ]
      have hd : Rc.dropOp ⟨some ⟨v, p + 2⟩, h, d⟩ =
          some ⟨some ⟨v, p + 1⟩, h - 1, d⟩ := rfl
      rw [hd, Option.some_bind, ih (h - 1) (by omega)]
      have e2 : h - 1 - (p + 1) = h - (p + 2) := by omega
      rw [e2]

/-- C1: in every reachable `Rc` state the refcount stored in the block
equals the number of live handles and the block exists iff at least one
handle is live; and destroying all `N+1` handles arising from `N`
clones of one original causes exactly one deallocation, at the
destruction of the last surviving handle (the block is still live with
no deallocation after any `k ≤ N` destructions). -/
theorem rc_refcount_invariant (α : Type) (v : α) (s : RcState α)
    (hr : RcReach α v s) (N : Nat) :
    ((∀ b, s.block = some b → b.refcount = s.handles ∧ 1 ≤ b.refcount) ∧
      (s.block.isSome ↔ 1 ≤ s.handles)) ∧
    ((iterOp Rc.cloneOp N (Rc.new v)).bind (iterOp Rc.dropOp (N + 1)) =
        some ⟨none, 0, 1⟩ ∧
      ∀ k, k ≤ N →
        (iterOp Rc.cloneOp N (Rc.new v)).bind (iterOp Rc.dropOp k) =
          some ⟨some ⟨v, N + 1 - k⟩, N + 1 - k, 0⟩) := by
  constructor
  · rcases RcReach_inv hr with ⟨h1, h2, h3⟩ | ⟨h1, h2, h3⟩
    · constructor
      · intro b hb
        rw [h1] at hb
        simp only [Option.some.injEq] at hb
        subst hb
        exact ⟨rfl, h2⟩
      · rw [h1]
        simp only [Option.isSome_some, true_iff]
        exact h2
    · constructor
      · intro b hb
        rw [h1] at hb
        exact absurd hb (by simp)
      · rw [h1, h2]
        simp
  · have hclone : iterOp Rc.cloneOp N (Rc.new v) =
        some ⟨some ⟨v, N + 1⟩, N + 1, 0⟩ := by
      have := iterOp_clone N v 1 1 0
      rw [Rc.new, this]
      have e : 1 + N = N + 1 := by omega
      rw [e]
    constructor
    · rw [hclone, Option.some_bind, iterOp_drop_all (N + 1) v (N + 1) 0 (by omega)]
      simp
    · intro k hk
      rw [hclone, Option.some_bind, iterOp_drop_live k v (N + 1) (N + 1) 0 (by omega)]

/-- Witness for C1 at `α = Nat`, `v = 0`, the initial state, `N = 2`. -/
theorem rc_refcount_invariant_witness :
    (iterOp Rc.cloneOp 2 (Rc.new (0 : Nat))).bind (iterOp Rc.dropOp 3) =
      some ⟨none, 0, 1⟩ ∧ ((Rc.new (0 : Nat)).block.isSome ↔
        1 ≤ (Rc.new (0 : Nat)).handles) :=
  ⟨(rc_refcount_invariant Nat 0 (Rc.new 0) RcReach.init 2).2.1,
   (rc_refcount_invariant Nat 0 (Rc.new 0) RcReach.init 2).1.2⟩

/-- C6: `clone` reads the current refcount, increments it by one,
writes it back, and returns one more handle to the same block; the
wrapped value is unchanged and not duplicated. -/
theorem rc_clone_spec (α : Type) (s : RcState α) (b : RcInner α)
    (h : s.block = some b) :
    Rc.cloneOp s =
      some ⟨some ⟨b.value, b.refcount + 1⟩, s.handles + 1, s.deallocs⟩ := by
  simp [Rc.cloneOp, h]

/-- Witness for C6 at `Rc.new 0`. -/
theorem rc_clone_spec_witness :
    Rc.cloneOp (Rc.new (0 : Nat)) = some ⟨some ⟨0, 2⟩, 2, 0⟩ :=
  rc_clone_spec Nat (Rc.new 0) ⟨0, 1⟩ rfl

/-- C7: handle destruction reads the refcount; at exactly `1` the block
(value and refcount together) is deallocated, otherwise the refcount is
decremented and the block survives; a deallocation event happens iff
the refcount was `1`, i.e. exactly when it transitions from 1 to 0. -/
theorem rc_drop_spec (α : Type) (s : RcState α) (w : α) (c : Nat)
    (h : s.block = some ⟨w, c⟩) :
    (c = 1 → Rc.dropOp s = some ⟨none, s.handles - 1, s.deallocs + 1⟩) ∧
    (c ≠ 1 → Rc.dropOp s =
        some ⟨some ⟨w, c - 1⟩, s.handles - 1, s.deallocs⟩) ∧
    (∀ s', Rc.dropOp s = some s' →
      (s'.deallocs = s.deallocs + 1 ↔ c = 1)) := by
  rcases Nat.lt_trichotomy c 1 with hlt | rfl | hgt
  · obtain rfl : c = 0 := by omega
    refine ⟨fun hc => absurd hc (by omega), fun _ => by simp [Rc.dropOp, h], ?_⟩
    intro s' hs'
    simp only [Rc.dropOp, h, Option.some.injEq] at hs'
    subst hs'
    show s.deallocs = s.deallocs + 1 ↔ 0 = 1
    omega
  · refine ⟨fun _ => by simp [Rc.dropOp, h], fun hc => absurd rfl hc, ?_⟩
    intro s' hs'
    simp only [Rc.dropOp, h, Option.some.injEq] at hs'
    subst hs'
    show s.deallocs + 1 = s.deallocs + 1 ↔ 1 = 1
    omega
  · obtain ⟨m, rfl⟩ : ∃ m, c = m + 2 := ⟨c - 2, by omega⟩
    refine ⟨fun hc => absurd hc (by omega), fun _ => by simp [Rc.dropOp, h], ?_⟩
    intro s' hs'
    simp only [Rc.dropOp, h, Option.some.injEq] at hs'
    subst hs'
    show s.deallocs = s.deallocs + 1 ↔ m + 2 = 1
    omega

/-- Witness for C7 at `Rc.new 0` (refcount 1: the block is freed). -/
theorem rc_drop_spec_witness :
    Rc.dropOp (Rc.new (0 : Nat)) = some ⟨none, 0, 1⟩ :=
  (rc_drop_spec Nat (Rc.new 0) 0 1 rfl).1 rfl

/-! ## Machine (`usize`) arithmetic of the two counter increments -/

/-- The number of values of `usize` on the 64-bit targets this crate
builds for. -/
def usizeCard : Nat := 2 ^ 64

/-- `usize` addition as the release-mode machine performs it: wrapping
modulo `2^64`. -/
def usizeAdd (a b : Nat) : Nat := (a + b) % usizeCard

/-- The refcount update of `Clone for Rc` under machine arithmetic:
`inner.refcount.set(inner.refcount.get() + 1)`, an unchecked addition. -/
def cloneRefcountUsize (c : Nat) : Nat := usizeAdd c 1

/-- The count update of `RefCell::borrow` from `Shared(n)` under
machine arithmetic: `Shared(n + 1)`, an unchecked addition. -/
def borrowCountUsize (n : Nat) : Nat := usizeAdd n 1

/-- C10: the counter increments in `Rc::clone` and in
`RefCell::borrow` from `Shared(n)` are unchecked `usize` additions: at
`2^64 - 1` they wrap to `0` instead of yielding the successor, so the
counter stops tracking the number of live handles/guards there. -/
theorem counter_increment_wraps_at_max :
    cloneRefcountUsize (usizeCard - 1) = 0 ∧
    borrowCountUsize (usizeCard - 1) = 0 ∧
    cloneRefcountUsize (usizeCard - 1) ≠ usizeCard - 1 + 1 ∧
    borrowCountUsize (usizeCard - 1) ≠ usizeCard - 1 + 1 := by
  refine ⟨?_, ?_, ?_, ?_⟩ <;>
    norm_num [cloneRefcountUsize, borrowCountUsize, usizeAdd, usizeCard]
